import Mathlib

/-!
# Verification of the sales-analysis pipeline (`src/sale_analysis.py`)

Shallow embedding of the `SalesAnalyzer` pipeline: loading, cleaning
(mean-fill of missing numeric values, date parsing, month derivation),
metric calculation (pandas `groupby`/`sum`/`mean`/`sort_values`/`idxmax`),
the trend-chart reindexing of the visualizer, and the per-region
percentage lines of the reporter.

Numeric cells are `Option ℚ` (`none` models a missing value / NaN);
pandas reductions skip NaN, which the column operations below reproduce.
pandas `groupby` is called with its default `sort=True`, so group keys
appear in ascending lexicographic order, and `sort_values(ascending=False)`
is implemented by pandas as the ascending argsort followed by a reversal
(`nargsort`), which is modelled here as a stable ascending insertion sort
followed by `List.reverse`.
-/

namespace SaleAnalysis

/-- A calendar date as produced by `pd.to_datetime` on a parseable date
string (parse failures are fatal in the source and are not modelled:
the loader is given already-parsed dates). -/
structure DateYMD where
  year : Nat
  month : Nat
  day : Nat
deriving DecidableEq, Repr

/-- `pd.Timestamp.month_name()`: the full English month name of a date's
month number (always `1`–`12` for a parsed date). -/
def monthName (m : Nat) : String :=
  match m with
  | 1 => "January"
  | 2 => "February"
  | 3 => "March"
  | 4 => "April"
  | 5 => "May"
  | 6 => "June"
  | 7 => "July"
  | 8 => "August"
  | 9 => "September"
  | 10 => "October"
  | 11 => "November"
  | 12 => "December"
  | _ => ""

/-- One row of the CSV as loaded by `pd.read_csv`: columns
`Date, Product, Region, Quantity, Price, Total_Sales`.  Numeric cells may
be missing (`none` = NaN). -/
structure RawRecord where
  date : DateYMD
  product : String
  region : String
  quantity : Option ℚ
  price : Option ℚ
  total_sales : Option ℚ
deriving DecidableEq, Repr

/-- One row after `clean_data`: same columns, with the derived `Month`
column appended.  The numeric cells stay `Option ℚ` because `fillna` with
a NaN mean (an all-missing column) leaves them missing. -/
structure Record where
  date : DateYMD
  product : String
  region : String
  quantity : Option ℚ
  price : Option ℚ
  total_sales : Option ℚ
  month : String
deriving DecidableEq, Repr

/-- `Series.sum()` with the default `skipna=True`: missing entries
contribute nothing. -/
def colSum (xs : List (Option ℚ)) : ℚ :=
  (xs.map (fun x => x.getD 0)).sum

/-- `Series.count()`: the number of non-missing entries. -/
def colCount (xs : List (Option ℚ)) : Nat :=
  (xs.filter (fun x => x.isSome)).length

/-- `Series.mean()`: arithmetic mean of the non-missing entries;
`none` (NaN) when every entry is missing. -/
def colMean (xs : List (Option ℚ)) : Option ℚ :=
  if colCount xs = 0 then none else some (colSum xs / (colCount xs : ℚ))

/-- Effect of `df[col].fillna(df[col].mean())` on one cell of the column
`xs`: a present value is kept, a missing value becomes the column mean
(and stays missing when the mean itself is NaN, i.e. the column has no
non-missing entry, since `fillna(NaN)` fills nothing).  The
`df[col].isnull().any()` guard of the source only skips the fill when
there is nothing to fill, so it does not change this cell-wise result. -/
def fillWithMean (xs : List (Option ℚ)) (x : Option ℚ) : Option ℚ :=
  match x with
  | some v => some v
  | none => colMean xs

/-- `clean_data` on one row of a loaded table `t`: mean-fill the three
numeric cells against their columns, keep `Date` (already parsed),
`Product` and `Region`, and append `Month = Date.month_name()`. -/
def cleanRecord (t : List RawRecord) (r : RawRecord) : Record :=
  { date := r.date
    product := r.product
    region := r.region
    quantity := fillWithMean (t.map (fun s => s.quantity)) r.quantity
    price := fillWithMean (t.map (fun s => s.price)) r.price
    total_sales := fillWithMean (t.map (fun s => s.total_sales)) r.total_sales
    month := monthName r.date.month }

/-- The table-level effect of `clean_data` on a loaded table. -/
def cleanTable (t : List RawRecord) : List Record :=
  t.map (cleanRecord t)

/-- The distinct elements of a list in first-encounter order. -/
def firstKeys : List String → List String
  | [] => []
  | k :: ks => k :: (firstKeys ks).filter (fun a => a ≠ k)

/-- Lexicographic comparison of character lists by Unicode code point —
the order Python (and hence pandas' `sort=True` grouping of string keys)
uses on strings. -/
def charListLe : List Char → List Char → Bool
  | [], _ => true
  | _ :: _, [] => false
  | a :: as, b :: bs =>
    if a.toNat < b.toNat then true
    else if b.toNat < a.toNat then false
    else charListLe as bs

/-- Python's `<=` on strings: code-point lexicographic order. -/
def strLe (a b : String) : Prop :=
  charListLe a.data b.data = true

instance : DecidableRel strLe :=
  fun a b => inferInstanceAs (Decidable (charListLe a.data b.data = true))

/-- `df.groupby(key)[val].sum()`: one pair per distinct key, the value
being the NaN-skipping sum of `val` over the key's rows.  With groupby's
default `sort=True` the keys are listed in ascending lexicographic
order. -/
def groupbySum {α : Type} (t : List α) (key : α → String) (val : α → Option ℚ) :
    List (String × ℚ) :=
  (List.insertionSort strLe (firstKeys (t.map key))).map
    (fun k => (k, colSum ((t.filter (fun r => key r = k)).map val)))

/-- Ordering of series entries by their value component, used by
`sort_values`. -/
def valLe (a b : String × ℚ) : Prop :=
  a.2 ≤ b.2

instance : DecidableRel valLe :=
  fun a b => inferInstanceAs (Decidable (a.2 ≤ b.2))

instance : IsTotal (String × ℚ) valLe :=
  ⟨fun a b => le_total a.2 b.2⟩

instance : IsTrans (String × ℚ) valLe :=
  ⟨fun _ _ _ h1 h2 => le_trans h1 h2⟩

/-- `Series.sort_values(ascending=False)`: pandas computes the ascending
argsort and reverses it (`nargsort`), so entries are listed by descending
value and runs of equal values appear in reverse of their prior order.
Modelled as a stable ascending insertion sort followed by a reversal. -/
def sortValuesDesc (l : List (String × ℚ)) : List (String × ℚ) :=
  (List.insertionSort valLe l).reverse

/-- `Series.idxmax()`: the index label of the first entry holding the
maximum value; raises on an empty series, modelled as `none`. -/
def idxmax (l : List (String × ℚ)) : Option String :=
  (l.find? (fun p => l.all (fun q => q.2 ≤ p.2))).map (fun p => p.1)

/-- `Series.max()`: the maximum value of the series, `none` when empty. -/
def seriesMax : List (String × ℚ) → Option ℚ
  | [] => none
  | p :: l => some ((seriesMax l).elim p.2 (fun m => max p.2 m))

/-- The `metrics` dictionary filled by `calculate_metrics`.
`best_product`, `best_product_qty` and `avg_transaction` are `Option`s
because on an empty table `idxmax` raises and `mean` is NaN. -/
structure Metrics where
  total_sales : ℚ
  best_product : Option String
  best_product_qty : Option ℚ
  avg_transaction : Option ℚ
  regional_sales : List (String × ℚ)
  monthly_sales : List (String × ℚ)
deriving DecidableEq, Repr

/-- `product_sales = df.groupby('Product')['Quantity'].sum().sort_values(ascending=False)`. -/
def product_sales (t : List Record) : List (String × ℚ) :=
  sortValuesDesc (groupbySum t (fun r => r.product) (fun r => r.quantity))

/-- `calculate_metrics` on the cleaned table: the five aggregates, in the
source's order. -/
def calculate_metrics (t : List Record) : Metrics :=
  { total_sales := colSum (t.map (fun r => r.total_sales))
    best_product := idxmax (product_sales t)
    best_product_qty := seriesMax (product_sales t)
    avg_transaction := colMean (t.map (fun r => r.total_sales))
    regional_sales :=
      sortValuesDesc (groupbySum t (fun r => r.region) (fun r => r.total_sales))
    monthly_sales := groupbySum t (fun r => r.month) (fun r => r.total_sales) }

/-- The fixed x-axis of the monthly trend chart
(`months_order = ['January', 'February', 'March', 'April']`). -/
def months_order : List String :=
  ["January", "February", "March", "April"]

/-- Label lookup in a series (`Series.reindex` semantics for one label:
the value at the label, NaN when the label is absent). -/
def lookupSeries (k : String) : List (String × ℚ) → Option ℚ
  | [] => none
  | p :: l => if p.1 = k then some p.2 else lookupSeries k l

/-- `monthly_data.reindex(months_order)`: the series the trend chart
plots — exactly the four fixed labels, each carrying that month's revenue
when the month is present and NaN (`none`, plotted as a gap, not an
error) when absent.  A month outside `months_order` is dropped. -/
def trendSeries (m : List (String × ℚ)) : List (String × Option ℚ) :=
  months_order.map (fun k => (k, lookupSeries k m))

/-- The per-region percentage computed by `generate_report`:
`(sales / metrics['total_sales']) * 100`, one line per entry of
`regional_sales`. -/
def regionalPercentages (m : Metrics) : List (String × ℚ) :=
  m.regional_sales.map (fun p => (p.1, p.2 / m.total_sales * 100))

/-- The tie rule the spec states for `best_product`: group the records
by product in first-encounter order, sum quantities, and take the first
group attaining the maximum (stable argmax).  Written from the spec's
words, to be compared with the source's `idxmax` after
`sort_values(ascending=False)`. -/
def specStableArgmax (t : List Record) : Option String :=
  idxmax ((firstKeys (t.map (fun r => r.product))).map
    (fun k => (k, colSum ((t.filter (fun r => r.product = k)).map (fun r => r.quantity)))))

/-- The key order the spec states for `monthly_sales`: months in
first-encounter order (the order in which months first appear in the
table).  Written from the spec's words, to be compared with the key
order the source's grouping produces. -/
def specEncounterMonths (t : List Record) : List String :=
  firstKeys (t.map (fun r => r.month))

/-- Modelled from the spec (§8: for tables with no missing values,
clean-then-compute "equals direct computation on the raw table"): the
five aggregates computed directly over the raw, uncleaned columns, a raw
record's month for the monthly grouping being the month name of its
(parsed) date. -/
def directMetrics (t : List RawRecord) : Metrics :=
  { total_sales := colSum (t.map (fun r => r.total_sales))
    best_product :=
      idxmax (sortValuesDesc (groupbySum t (fun r => r.product) (fun r => r.quantity)))
    best_product_qty :=
      seriesMax (sortValuesDesc (groupbySum t (fun r => r.product) (fun r => r.quantity)))
    avg_transaction := colMean (t.map (fun r => r.total_sales))
    regional_sales :=
      sortValuesDesc (groupbySum t (fun r => r.region) (fun r => r.total_sales))
    monthly_sales :=
      groupbySum t (fun r => monthName r.date.month) (fun r => r.total_sales) }

/-- The spec's description of mean filling (§8: "column `[10, missing,
30]` → fill = `20`"): every missing entry becomes the arithmetic mean of
the column's non-missing values, present entries stay. -/
def specMeanFill (col : List (Option ℚ)) : List (Option ℚ) :=
  col.map (fun x => some (x.getD (col.reduceOption.sum / (col.reduceOption.length : ℚ))))

/-- The analyzer's DataFrame attribute: a raw table right after
`load_data`, a cleaned one after `clean_data`. -/
inductive DFState
  | raw (t : List RawRecord)
  | cleaned (t : List Record)
deriving DecidableEq

/-- The mutable state of a `SalesAnalyzer` instance. -/
structure SalesAnalyzer where
  file_path : String
  df : Option DFState
  metrics : Option Metrics
deriving DecidableEq

/-- The console output of `load_data`. -/
inductive Msg
  | loadedShape (rows : Nat) (cols : List String)
  | fileNotFound (path : String)
deriving DecidableEq

/-- The required CSV columns, in file order. -/
def rawColumns : List String :=
  ["Date", "Product", "Region", "Quantity", "Price", "Total_Sales"]

/-- `load_data`: the file system is modelled as `Option (List RawRecord)`
(`none` = the hardcoded input file does not exist, the only error
`load_data` recognizes).  On success it stores the table, prints the
shape and column list and returns `true`; on `FileNotFoundError` it
prints the failure and returns `false` leaving the state unchanged. -/
def load_data (fs : Option (List RawRecord)) (s : SalesAnalyzer) :
    SalesAnalyzer × Bool × List Msg :=
  match fs with
  | some t =>
    ({ s with df := some (DFState.raw t) }, true, [Msg.loadedShape t.length rawColumns])
  | none => (s, false, [Msg.fileNotFound s.file_path])

/-- `clean_data`: returns `false` leaving the state untouched when no
data is loaded; otherwise mean-fills, parses dates and appends the month
column.  (On an already-cleaned table the source's fill, parse and
month-derivation steps are all no-ops, hence the identity in the last
branch.) -/
def clean_data (s : SalesAnalyzer) : SalesAnalyzer × Bool :=
  match s.df with
  | none => (s, false)
  | some (DFState.raw t) =>
    ({ s with df := some (DFState.cleaned (cleanTable t)) }, true)
  | some (DFState.cleaned t) =>
    ({ s with df := some (DFState.cleaned t) }, true)

/-- `calculate_metrics` at the state level: populates `metrics` from the
cleaned table.  (The other branches are unreachable on the main path:
there the source would raise on the absent `Month` column.) -/
def calc_metrics_state (s : SalesAnalyzer) : SalesAnalyzer :=
  match s.df with
  | some (DFState.cleaned t) => { s with metrics := some (calculate_metrics t) }
  | _ => s

/-- The five pipeline stages of `main`. -/
inductive Stage
  | loader
  | cleaner
  | metricsCalculator
  | visualizer
  | reporter
deriving DecidableEq

/-- `main`: builds the analyzer on the hardcoded path, loads, and only
when loading succeeded runs the four downstream stages.  Returns the
final state, the stages that ran, and the process exit code (`0` in both
branches: a load failure only skips the rest, it does not raise and sets
no failure exit code). -/
def main_run (fs : Option (List RawRecord)) : SalesAnalyzer × List Stage × Nat :=
  let s0 : SalesAnalyzer := { file_path := "sales_data.csv", df := none, metrics := none }
  match load_data fs s0 with
  | (s1, true, _) =>
    ((calc_metrics_state (clean_data s1).1),
      [Stage.loader, Stage.cleaner, Stage.metricsCalculator, Stage.visualizer, Stage.reporter],
      0)
  | (s1, false, _) => (s1, [Stage.loader], 0)

/-- A freshly constructed analyzer, as `main` builds it. -/
def analyzer0 : SalesAnalyzer :=
  { file_path := "sales_data.csv", df := none, metrics := none }

/-- Fixture: quantity column `[10, missing, 30]` (price and total
complete), the spec's own mean-fill example. -/
def c2tbl : List RawRecord :=
  [⟨⟨2024, 1, 1⟩, "A", "North", some 10, some 1, some 10⟩,
    ⟨⟨2024, 1, 2⟩, "A", "North", none, some 1, some 10⟩,
    ⟨⟨2024, 1, 3⟩, "A", "North", some 30, some 1, some 10⟩]

/-- Fixture (cleaned): a three-way tie on summed quantity, products
encountered in the order B, C, A. -/
def c3tbl : List Record :=
  [⟨⟨2024, 1, 10⟩, "B", "North", some 5, some 2, some 10, "January"⟩,
    ⟨⟨2024, 1, 11⟩, "C", "North", some 5, some 2, some 10, "January"⟩,
    ⟨⟨2024, 1, 12⟩, "A", "North", some 5, some 2, some 10, "January"⟩]

/-- Fixture (cleaned): a unique best seller, B with 5 units against A
with 3. -/
def c3wtbl : List Record :=
  [⟨⟨2024, 1, 10⟩, "A", "North", some 3, some 2, some 6, "January"⟩,
    ⟨⟨2024, 1, 11⟩, "B", "South", some 5, some 2, some 10, "January"⟩]

/-- Fixture: months encountered in the order February, April (which is
also calendar order; the source's grouping will list April first). -/
def c4tbl : List RawRecord :=
  [⟨⟨2024, 2, 5⟩, "Widget", "North", some 1, some 2, some 2⟩,
    ⟨⟨2024, 4, 3⟩, "Widget", "South", some 2, some 3, some 6⟩]

/-- Fixture: a complete table (no missing values). -/
def c5tbl : List RawRecord :=
  [⟨⟨2024, 1, 5⟩, "Widget", "North", some 2, some 10, some 20⟩,
    ⟨⟨2024, 2, 6⟩, "Gadget", "South", some 3, some 10, some 30⟩]

/-- Fixture: two regions with revenues 30 and 70. -/
def c6tbl : List RawRecord :=
  [⟨⟨2024, 1, 5⟩, "Widget", "North", some 1, some 30, some 30⟩,
    ⟨⟨2024, 1, 6⟩, "Widget", "South", some 1, some 70, some 70⟩]

/-- Fixture: one January record and one May record — May lies outside
the trend chart's fixed month list. -/
def c7tbl : List RawRecord :=
  [⟨⟨2024, 1, 15⟩, "Widget", "North", some 1, some 100, some 100⟩,
    ⟨⟨2024, 5, 20⟩, "Widget", "South", some 1, some 50, some 50⟩]

/-- Fixture: a single-record table for the frame property of
`clean_data`. -/
def c10tbl : List RawRecord :=
  [⟨⟨2024, 3, 9⟩, "Widget", "North", some 4, none, some 44⟩]

/-! ## Order properties of the key comparison -/

theorem charListLe_total : ∀ as bs : List Char,
    charListLe as bs = true ∨ charListLe bs as = true := by
  intro as
  induction as with
  | nil => intro bs; left; rfl
  | cons a as ih =>
    intro bs
    cases bs with
    | nil => right; rfl
    | cons b bs =>
      by_cases h1 : a.toNat < b.toNat
      · left
        simp [charListLe, h1]
      · by_cases h2 : b.toNat < a.toNat
        · right
          simp [charListLe, h2]
        · rcases ih bs with h | h
          · left
            simp [charListLe, h1, h2, h]
          · right
            simp [charListLe, h1, h2, h]

theorem charListLe_trans : ∀ as bs cs : List Char, charListLe as bs = true →
    charListLe bs cs = true → charListLe as cs = true := by
  intro as
  induction as with
  | nil => intro bs cs _ _; rfl
  | cons a as ih =>
    intro bs cs hab hbc
    cases bs with
    | nil => simp [charListLe] at hab
    | cons b bs =>
      cases cs with
      | nil => simp [charListLe] at hbc
      | cons c cs =>
        by_cases hab1 : a.toNat < b.toNat
        · by_cases hbc1 : b.toNat < c.toNat
          · have hac : a.toNat < c.toNat := lt_trans hab1 hbc1
            simp [charListLe, hac]
          · by_cases hbc2 : c.toNat < b.toNat
            · simp [charListLe, hbc1, hbc2] at hbc
            · have hbc3 : b.toNat = c.toNat :=
                le_antisymm (le_of_not_lt hbc2) (le_of_not_lt hbc1)
              have hac : a.toNat < c.toNat := hbc3 ▸ hab1
              simp [charListLe, hac]
        · by_cases hab2 : b.toNat < a.toNat
          · simp [charListLe, hab1, hab2] at hab
          · have hab3 : a.toNat = b.toNat :=
              le_antisymm (le_of_not_lt hab2) (le_of_not_lt hab1)
            have hab' : charListLe as bs = true := by
              simpa [charListLe, hab1, hab2] using hab
            by_cases hbc1 : b.toNat < c.toNat
            · have hac : a.toNat < c.toNat := hab3 ▸ hbc1
              simp [charListLe, hac]
            · by_cases hbc2 : c.toNat < b.toNat
              · simp [charListLe, hbc1, hbc2] at hbc
              · have hbc' : charListLe bs cs = true := by
                  simpa [charListLe, hbc1, hbc2] using hbc
                have hac1 : ¬ a.toNat < c.toNat := by omega
                have hac2 : ¬ c.toNat < a.toNat := by omega
                simp [charListLe, hac1, hac2, ih bs cs hab' hbc']

instance : IsTotal String strLe :=
  ⟨fun a b => charListLe_total a.data b.data⟩

instance : IsTrans String strLe :=
  ⟨fun a b c => charListLe_trans a.data b.data c.data⟩

/-! ## Distinct keys in first-encounter order -/

theorem mem_firstKeys {a : String} : ∀ {l : List String}, a ∈ firstKeys l ↔ a ∈ l := by
  intro l
  induction l with
  | nil => simp [firstKeys]
  | cons k ks ih =>
    by_cases hak : a = k
    · subst hak
      simp [firstKeys]
    · simp [firstKeys, List.mem_filter, ih, hak]

theorem nodup_firstKeys : ∀ l : List String, (firstKeys l).Nodup := by
  intro l
  induction l with
  | nil => simp [firstKeys]
  | cons k ks ih =>
    refine List.nodup_cons.mpr ⟨?_, ih.filter _⟩
    simp [List.mem_filter]

/-! ## Column reductions -/

theorem colSum_cons (x : Option ℚ) (xs : List (Option ℚ)) :
    colSum (x :: xs) = x.getD 0 + colSum xs := by
  simp [colSum]

theorem colSum_eq_reduceOption_sum : ∀ xs : List (Option ℚ),
    colSum xs = xs.reduceOption.sum := by
  intro xs
  induction xs with
  | nil => rfl
  | cons x xs ih => cases x <;> simp [colSum_cons, ih, List.reduceOption_cons_of_some]

theorem colCount_cons (x : Option ℚ) (xs : List (Option ℚ)) :
    colCount (x :: xs) = (if x.isSome then 1 else 0) + colCount xs := by
  cases x <;> simp [colCount, List.filter_cons] <;> omega

theorem colCount_eq_reduceOption_length : ∀ xs : List (Option ℚ),
    colCount xs = xs.reduceOption.length := by
  intro xs
  induction xs with
  | nil => rfl
  | cons x xs ih => cases x <;> simp [colCount_cons, ih, List.reduceOption_cons_of_some] <;> omega

theorem colMean_eq_of_ne_nil {xs : List (Option ℚ)} (h : xs.reduceOption ≠ []) :
    colMean xs = some (xs.reduceOption.sum / (xs.reduceOption.length : ℚ)) := by
  have hc : colCount xs ≠ 0 := by
    rw [colCount_eq_reduceOption_length]
    simpa [List.length_eq_zero] using h
  simp [colMean, hc, colSum_eq_reduceOption_sum, colCount_eq_reduceOption_length, h]

/-! ## Grouping -/

theorem groupbySum_keys {α : Type} (t : List α) (key : α → String) (val : α → Option ℚ) :
    (groupbySum t key val).map Prod.fst = List.insertionSort strLe (firstKeys (t.map key)) := by
  unfold groupbySum
  rw [List.map_map]
  exact List.map_id' _

theorem nodup_groupbySum_keys {α : Type} (t : List α) (key : α → String)
    (val : α → Option ℚ) : ((groupbySum t key val).map Prod.fst).Nodup := by
  rw [groupbySum_keys]
  exact ((List.perm_insertionSort strLe _).nodup_iff).mpr (nodup_firstKeys _)

theorem mem_groupbySum {α : Type} {t : List α} {key : α → String} {val : α → Option ℚ}
    {k : String} {v : ℚ} :
    (k, v) ∈ groupbySum t key val ↔
      k ∈ t.map key ∧ v = colSum ((t.filter (fun r => key r = k)).map val) := by
  constructor
  · intro h
    rcases List.mem_map.mp h with ⟨k', hk', hkv⟩
    rcases Prod.mk.injEq .. ▸ hkv with ⟨h1, h2⟩
    subst h1
    exact ⟨mem_firstKeys.mp ((List.mem_insertionSort strLe).mp hk'), h2.symm⟩
  · rintro ⟨hk, rfl⟩
    exact List.mem_map.mpr
      ⟨k, (List.mem_insertionSort strLe).mpr (mem_firstKeys.mpr hk), rfl⟩

theorem groupbySum_val_unique {α : Type} {t : List α} {key : α → String}
    {val : α → Option ℚ} {k : String} {v v' : ℚ}
    (h : (k, v) ∈ groupbySum t key val) (h' : (k, v') ∈ groupbySum t key val) : v = v' := by
  rw [mem_groupbySum] at h h'
  rw [h.2, h'.2]

theorem sum_map_ite_single : ∀ (K : List String), K.Nodup → ∀ (a : String), a ∈ K →
    ∀ c : ℚ, (K.map (fun k => if a = k then c else 0)).sum = c := by
  intro K
  induction K with
  | nil => intro _ a ha; cases ha
  | cons k ks ih =>
    intro hnd a ha c
    rcases List.nodup_cons.mp hnd with ⟨hk, hks⟩
    rcases List.mem_cons.mp ha with rfl | ha'
    · have hrest : ((ks.map (fun k' => if a = k' then c else 0)).sum : ℚ) = 0 := by
        apply List.sum_eq_zero
        intro x hx
        rcases List.mem_map.mp hx with ⟨k', hk', rfl⟩
        have : a ≠ k' := fun h => hk (h ▸ hk')
        simp [this]
      simp [hrest]
    · have hak : a ≠ k := fun h => hk (h ▸ ha')
      simp [hak, ih hks a ha' c]

theorem sum_group_parts {α : Type} (key : α → String) (val : α → Option ℚ) :
    ∀ (t : List α) (K : List String), K.Nodup → (∀ r ∈ t, key r ∈ K) →
      (K.map (fun k => colSum ((t.filter (fun r => key r = k)).map val))).sum
        = colSum (t.map val) := by
  intro t
  induction t with
  | nil =>
    intro K _ _
    apply List.sum_eq_zero
    intro x hx
    rcases List.mem_map.mp hx with ⟨k, _, rfl⟩
    simp [colSum]
  | cons r t ih =>
    intro K hnd hcov
    have hr : key r ∈ K := hcov r (List.mem_cons_self r t)
    have hcov' : ∀ x ∈ t, key x ∈ K := fun x hx => hcov x (List.mem_cons_of_mem r hx)
    have hstep : ∀ k : String,
        colSum (((r :: t).filter (fun x => key x = k)).map val)
          = (if key r = k then (val r).getD 0 else 0)
            + colSum ((t.filter (fun x => key x = k)).map val) := by
      intro k
      by_cases hrk : key r = k
      · simp [List.filter_cons, hrk, colSum_cons]
      · simp [List.filter_cons, hrk]
    calc (K.map (fun k => colSum (((r :: t).filter (fun x => key x = k)).map val))).sum
        = (K.map (fun k => (if key r = k then (val r).getD 0 else 0)
            + colSum ((t.filter (fun x => key x = k)).map val))).sum := by
          exact congrArg List.sum (List.map_congr_left (fun k _ => hstep k))
      _ = (K.map (fun k => if key r = k then (val r).getD 0 else 0)).sum
            + (K.map (fun k => colSum ((t.filter (fun x => key x = k)).map val))).sum :=
          List.sum_map_add ..
      _ = (val r).getD 0 + colSum (t.map val) := by
          rw [sum_map_ite_single K hnd (key r) hr, ih K hnd hcov']
      _ = colSum ((r :: t).map val) := by
          simp [colSum_cons]

theorem sum_groupbySum {α : Type} (t : List α) (key : α → String) (val : α → Option ℚ) :
    ((groupbySum t key val).map (fun p => p.2)).sum = colSum (t.map val) := by
  unfold groupbySum
  rw [List.map_map]
  have hperm : List.Perm (List.insertionSort strLe (firstKeys (t.map key)))
      (firstKeys (t.map key)) :=
    List.perm_insertionSort strLe _
  have := (hperm.map
    (fun k => colSum ((t.filter (fun r => key r = k)).map val))).sum_eq
  rw [show ((fun p : String × ℚ => p.2)
      ∘ fun k => (k, colSum ((t.filter (fun r => key r = k)).map val)))
      = fun k => colSum ((t.filter (fun r => key r = k)).map val) from rfl]
  rw [this]
  refine sum_group_parts key val t (firstKeys (t.map key)) (nodup_firstKeys _) ?_
  intro r hr
  exact mem_firstKeys.mpr (List.mem_map_of_mem key hr)

/-! ## The descending value sort, idxmax and max -/

theorem perm_sortValuesDesc (l : List (String × ℚ)) : List.Perm (sortValuesDesc l) l :=
  (List.reverse_perm _).trans (List.perm_insertionSort valLe l)

theorem sorted_le_getLast : ∀ (s : List (String × ℚ)) (hs : s ≠ []),
    List.Sorted valLe s → ∀ q ∈ s, q.2 ≤ (s.getLast hs).2 := by
  intro s
  induction s with
  | nil => intro hs; cases hs rfl
  | cons a s ih =>
    intro _ hsort q hq
    cases s with
    | nil =>
      rcases List.mem_singleton.mp hq with rfl
      exact le_refl _
    | cons b s' =>
      rw [List.getLast_cons (by simp)]
      rcases List.mem_cons.mp hq with rfl | hq'
      · have hmem : (b :: s').getLast (by simp) ∈ b :: s' := List.getLast_mem _
        exact List.rel_of_sorted_cons hsort _ hmem
      · exact ih (by simp) hsort.of_cons q hq'

theorem head_sortValuesDesc (l : List (String × ℚ)) (h : l ≠ []) :
    ∃ p, (sortValuesDesc l).head? = some p ∧ p ∈ l ∧ ∀ q ∈ l, q.2 ≤ p.2 := by
  have hs : List.insertionSort valLe l ≠ [] := by
    intro hnil
    apply h
    have hp := List.perm_insertionSort valLe l
    rw [hnil] at hp
    exact hp.nil_eq.symm
  refine ⟨(List.insertionSort valLe l).getLast hs, ?_, ?_, ?_⟩
  · rw [sortValuesDesc, List.head?_reverse]
    exact List.getLast?_eq_getLast _ hs
  · exact (List.mem_insertionSort valLe).mp (List.getLast_mem hs)
  · intro q hq
    exact sorted_le_getLast _ hs (List.sorted_insertionSort valLe l) q
      ((List.mem_insertionSort valLe).mpr hq)

theorem idxmax_eq_head {s : List (String × ℚ)} {p : String × ℚ}
    (hh : s.head? = some p) (hmax : ∀ q ∈ s, q.2 ≤ p.2) : idxmax s = some p.1 := by
  cases s with
  | nil => cases hh
  | cons a s' =>
    have hap : a = p := by simpa using hh
    subst hap
    unfold idxmax
    rw [List.find?_cons_of_pos]
    · rfl
    · simp only [List.all_eq_true, decide_eq_true_eq]
      intro q hq
      exact hmax q hq

theorem seriesMax_spec : ∀ l : List (String × ℚ), l ≠ [] →
    ∃ m, seriesMax l = some m ∧ (∃ k, (k, m) ∈ l) ∧ ∀ q ∈ l, q.2 ≤ m := by
  intro l
  induction l with
  | nil => intro h; cases h rfl
  | cons p l' ih =>
    intro _
    cases l' with
    | nil =>
      refine ⟨p.2, by simp [seriesMax], ⟨p.1, by simp⟩, ?_⟩
      intro q hq
      rcases List.mem_singleton.mp hq with rfl
      exact le_refl _
    | cons b l'' =>
      rcases ih (by simp) with ⟨m', hm', ⟨k', hk'⟩, hb⟩
      refine ⟨max p.2 m', ?_, ?_, ?_⟩
      · show some ((seriesMax (b :: l'')).elim p.2 (fun m => max p.2 m)) = some (max p.2 m')
        rw [hm']
        rfl
      · rcases le_total p.2 m' with h | h
        · exact ⟨k', by rw [max_eq_right h]; exact List.mem_cons_of_mem _ hk'⟩
        · exact ⟨p.1, by rw [max_eq_left h]; simp⟩
      · intro q hq
        rcases List.mem_cons.mp hq with rfl | hq'
        · exact le_max_left _ _
        · exact le_trans (hb q hq') (le_max_right _ _)

/-! ## Series label lookup -/

theorem lookupSeries_eq_some_mem {k : String} {v : ℚ} :
    ∀ {m : List (String × ℚ)}, lookupSeries k m = some v → (k, v) ∈ m := by
  intro m
  induction m with
  | nil => intro h; cases h
  | cons p m ih =>
    intro h
    rw [lookupSeries] at h
    by_cases hpk : p.1 = k
    · rw [if_pos hpk] at h
      have hv : p.2 = v := Option.some.inj h
      have : (k, v) = p := by
        cases p
        simp only at hpk hv
        simp [hpk, hv]
      rw [this]
      exact List.mem_cons_self _ _
    · rw [if_neg hpk] at h
      exact List.mem_cons_of_mem _ (ih h)

theorem mem_lookupSeries_of_nodup : ∀ {m : List (String × ℚ)},
    (m.map Prod.fst).Nodup → ∀ {k : String} {v : ℚ}, (k, v) ∈ m →
      lookupSeries k m = some v := by
  intro m
  induction m with
  | nil => intro _ _ _ h; cases h
  | cons p m ih =>
    intro hnd k v h
    rw [List.map_cons, List.nodup_cons] at hnd
    rcases List.mem_cons.mp h with heq | h'
    · subst heq
      simp [lookupSeries]
    · have hk : k ∈ m.map Prod.fst := List.mem_map_of_mem Prod.fst h'
      have hpk : p.1 ≠ k := fun hh => hnd.1 (hh ▸ hk)
      rw [lookupSeries, if_neg hpk]
      exact ih hnd.2 h'

/-! ## Grouping commutes with a row-wise transformation -/

theorem groupbySum_map_comp {α β : Type} (t : List α) (g : α → β) (key : β → String)
    (val : β → Option ℚ) :
    groupbySum (t.map g) key val
      = groupbySum t (fun r => key (g r)) (fun r => val (g r)) := by
  unfold groupbySum
  rw [List.map_map]
  apply List.map_congr_left
  intro k _
  congr 1
  rw [List.filter_map, List.map_map]
  rfl

/-! ## Mean filling of one column -/

theorem map_fillWithMean_eq_specMeanFill (col : List (Option ℚ))
    (h : col.reduceOption ≠ []) : col.map (fillWithMean col) = specMeanFill col := by
  unfold specMeanFill
  apply List.map_congr_left
  intro x _
  cases x with
  | some v => rfl
  | none =>
    show colMean col = some (Option.getD none _)
    rw [colMean_eq_of_ne_nil h]
    rfl

/-! ## The claims -/

/-- C1: the `total_sales` metric equals the exact sum of the
`Total_Sales` column of the cleaned table (the sum of its present
values; pandas `sum` skips missing entries). -/
theorem claim_c1_total_sales_metric (t : List RawRecord) :
    (calculate_metrics (cleanTable t)).total_sales
      = ((cleanTable t).map (fun r => r.total_sales)).reduceOption.sum :=
  colSum_eq_reduceOption_sum _

/-- C2: for each of the three numeric columns holding at least one
present value, cleaning maps the column to: present entries kept,
every missing entry replaced by exactly the arithmetic mean of the
present entries (so a column with no missing entry is left as-is). -/
theorem claim_c2_mean_fill (t : List RawRecord) :
    ((t.map (fun r => r.quantity)).reduceOption ≠ [] →
      (cleanTable t).map (fun r => r.quantity)
        = specMeanFill (t.map (fun r => r.quantity))) ∧
    ((t.map (fun r => r.price)).reduceOption ≠ [] →
      (cleanTable t).map (fun r => r.price)
        = specMeanFill (t.map (fun r => r.price))) ∧
    ((t.map (fun r => r.total_sales)).reduceOption ≠ [] →
      (cleanTable t).map (fun r => r.total_sales)
        = specMeanFill (t.map (fun r => r.total_sales))) := by
  refine ⟨fun h => ?_, fun h => ?_, fun h => ?_⟩
  · have hmaps : (cleanTable t).map (fun r => r.quantity)
        = (t.map (fun r => r.quantity)).map (fillWithMean (t.map (fun s => s.quantity))) := by
      simp [cleanTable, cleanRecord, List.map_map, Function.comp]
    rw [hmaps, map_fillWithMean_eq_specMeanFill _ h]
  · have hmaps : (cleanTable t).map (fun r => r.price)
        = (t.map (fun r => r.price)).map (fillWithMean (t.map (fun s => s.price))) := by
      simp [cleanTable, cleanRecord, List.map_map, Function.comp]
    rw [hmaps, map_fillWithMean_eq_specMeanFill _ h]
  · have hmaps : (cleanTable t).map (fun r => r.total_sales)
        = (t.map (fun r => r.total_sales)).map (fillWithMean (t.map (fun s => s.total_sales))) := by
      simp [cleanTable, cleanRecord, List.map_map, Function.comp]
    rw [hmaps, map_fillWithMean_eq_specMeanFill _ h]

/-- C2 witness: the spec's own example, quantity column `[10, missing,
30]`, is filled with the mean `20` of the present values. -/
theorem claim_c2_witness :
    (c2tbl.map (fun r => r.quantity)).reduceOption ≠ [] ∧
    (cleanTable c2tbl).map (fun r => r.quantity) = [some 10, some 20, some 30] := by
  refine ⟨by decide, ?_⟩
  have h := (claim_c2_mean_fill c2tbl).1 (by decide)
  rw [h]
  norm_num +decide [specMeanFill, c2tbl, List.reduceOption_cons_of_some]

/-- Selecting from the descending value sort: when the key `p₀` holds
the strictly maximal value `v₀` (and keys determine values), `idxmax`
picks `p₀` and the series maximum is `v₀`. -/
theorem bestFromSorted {G : List (String × ℚ)} {p₀ : String} {v₀ : ℚ}
    (hun : ∀ v v', (p₀, v) ∈ G → (p₀, v') ∈ G → v = v')
    (h₀ : (p₀, v₀) ∈ G)
    (hmax : ∀ q ∈ G, q.1 ≠ p₀ → q.2 < v₀) :
    idxmax (sortValuesDesc G) = some p₀ ∧ seriesMax (sortValuesDesc G) = some v₀ := by
  have hGne : G ≠ [] := List.ne_nil_of_mem h₀
  obtain ⟨p, hh, hpmem, hbound⟩ := head_sortValuesDesc G hGne
  have hv₀p : v₀ ≤ p.2 := hbound _ h₀
  have hkey : p.1 = p₀ := by
    by_contra hne
    exact absurd (hmax p hpmem hne) (not_lt.mpr hv₀p)
  constructor
  · have hidx : idxmax (sortValuesDesc G) = some p.1 := by
      apply idxmax_eq_head hh
      intro q hq
      exact hbound q ((perm_sortValuesDesc G).mem_iff.mp hq)
    rw [hidx, hkey]
  · have hne' : sortValuesDesc G ≠ [] := by
      intro hnil
      apply hGne
      have hp := perm_sortValuesDesc G
      rw [hnil] at hp
      exact hp.nil_eq.symm
    obtain ⟨m, hm, ⟨k, hkm⟩, hbm⟩ := seriesMax_spec _ hne'
    have hkmG : (k, m) ∈ G := (perm_sortValuesDesc G).mem_iff.mp hkm
    have hv₀m : v₀ ≤ m := hbm _ ((perm_sortValuesDesc G).mem_iff.mpr h₀)
    have hk : k = p₀ := by
      by_contra hne
      exact absurd (hmax _ hkmG hne) (not_lt.mpr hv₀m)
    have hmv : m = v₀ := hun _ _ (hk ▸ hkmG) h₀
    rw [hm, hmv]

/-- C3 (amended): `best_product_qty` is the maximal per-product summed
quantity and `best_product` the product attaining it, whenever that
maximum is unique; the originally claimed first-encounter stable-argmax
tie rule fails (the grouping sorts keys, and the descending value sort
reverses ties) — see the counterexample. -/
theorem claim_c3_best_product (t : List Record) (p₀ : String) (v₀ : ℚ)
    (h₀ : (p₀, v₀) ∈ groupbySum t (fun r => r.product) (fun r => r.quantity))
    (hmax : ∀ q ∈ groupbySum t (fun r => r.product) (fun r => r.quantity),
      q.1 ≠ p₀ → q.2 < v₀) :
    (calculate_metrics t).best_product = some p₀ ∧
    (calculate_metrics t).best_product_qty = some v₀ :=
  bestFromSorted (fun _ _ hv hv' => groupbySum_val_unique hv hv') h₀ hmax

/-- C3 witness: a table with a unique best seller (B, 5 units, against
A, 3 units) resolves to that product and its exact summed quantity. -/
theorem claim_c3_witness :
    (calculate_metrics c3wtbl).best_product = some "B" ∧
    (calculate_metrics c3wtbl).best_product_qty = some 5 := by
  have hGev : groupbySum c3wtbl (fun r => r.product) (fun r => r.quantity)
      = [("A", 3), ("B", 5)] := by
    norm_num +decide [groupbySum, firstKeys, c3wtbl, colSum, List.insertionSort,
      List.orderedInsert, List.filter_cons]
  apply claim_c3_best_product c3wtbl "B" 5
  · rw [hGev]
    norm_num
  · rw [hGev]
    intro q hq hne
    rcases List.mem_cons.mp hq with rfl | hq'
    · norm_num
    · rcases List.mem_singleton.mp hq' with rfl
      exact absurd rfl hne

/-- C3 counterexample: on a three-way exact tie with products
encountered in the order B, C, A, the source's
`idxmax`-after-`sort_values(ascending=False)` yields `"C"` (the grouping
sorts the keys to A, B, C and the descending sort reverses the tied run),
while the claimed first-encounter stable argmax yields `"B"`. -/
theorem claim_c3_counterexample :
    (calculate_metrics c3tbl).best_product = some "C" ∧
    specStableArgmax c3tbl = some "B" ∧
    (some "C" : Option String) ≠ some "B" := by
  refine ⟨?_, ?_, by decide⟩
  · norm_num +decide [calculate_metrics, product_sales, groupbySum, firstKeys, sortValuesDesc,
      idxmax, colSum, List.insertionSort, List.orderedInsert, valLe, c3tbl, List.filter_cons,
      List.find?, List.all]
  · norm_num +decide [specStableArgmax, firstKeys, idxmax, colSum, c3tbl, List.filter_cons,
      List.find?, List.all]

/-- C4 (amended): `monthly_sales` maps exactly the months present in the
cleaned table to the sum of their records' `Total_Sales`, but its key
order is ascending lexicographic — pandas `groupby` sorts group keys —
not first-encounter order (and not calendar order); see the
counterexample. -/
theorem claim_c4_monthly_sales (t : List RawRecord) :
    List.Sorted strLe ((calculate_metrics (cleanTable t)).monthly_sales.map Prod.fst) ∧
    (∀ k, k ∈ (calculate_metrics (cleanTable t)).monthly_sales.map Prod.fst ↔
      k ∈ (cleanTable t).map (fun r => r.month)) ∧
    (∀ p ∈ (calculate_metrics (cleanTable t)).monthly_sales,
      p.2 = colSum (((cleanTable t).filter (fun r => r.month = p.1)).map
        (fun r => r.total_sales))) := by
  refine ⟨?_, ?_, ?_⟩
  · show List.Sorted strLe ((groupbySum (cleanTable t) (fun r => r.month)
      (fun r => r.total_sales)).map Prod.fst)
    rw [groupbySum_keys]
    exact List.sorted_insertionSort strLe _
  · intro k
    show k ∈ (groupbySum (cleanTable t) (fun r => r.month)
      (fun r => r.total_sales)).map Prod.fst ↔ _
    rw [groupbySum_keys]
    simp [List.mem_insertionSort, mem_firstKeys]
  · intro p hp
    rcases p with ⟨k, v⟩
    exact (mem_groupbySum.mp hp).2

/-- C4 witness: the amended description instantiated — February is a key
of `monthly_sales` for a table with a February record, and the key list
is sorted. -/
theorem claim_c4_witness :
    ("February" ∈ (calculate_metrics (cleanTable c4tbl)).monthly_sales.map Prod.fst) ∧
    List.Sorted strLe ((calculate_metrics (cleanTable c4tbl)).monthly_sales.map Prod.fst) := by
  refine ⟨?_, (claim_c4_monthly_sales c4tbl).1⟩
  apply ((claim_c4_monthly_sales c4tbl).2.1 "February").mpr
  norm_num +decide [cleanTable, cleanRecord, c4tbl, monthName, fillWithMean]

/-- C4 counterexample: months encountered in the order February, April
(also their calendar order) are listed by the source as April, February —
lexicographic order, not group-encounter order. -/
theorem claim_c4_counterexample :
    (calculate_metrics (cleanTable c4tbl)).monthly_sales.map Prod.fst
      = ["April", "February"] ∧
    specEncounterMonths (cleanTable c4tbl) = ["February", "April"] ∧
    (["April", "February"] : List String) ≠ ["February", "April"] := by
  refine ⟨?_, ?_, by decide⟩
  · norm_num +decide [calculate_metrics, groupbySum, firstKeys, colSum, cleanTable,
      cleanRecord, c4tbl, monthName, List.insertionSort, List.orderedInsert,
      List.filter_cons, fillWithMean]
  · norm_num +decide [specEncounterMonths, firstKeys, cleanTable, cleanRecord, c4tbl,
      monthName, fillWithMean]

/-- C8: `load_data` returns `true` exactly when the input file exists
(then printing the record count and the column list), `false` exactly
when it is missing — and on that failure `main` runs no stage past the
Loader while the process still exits normally (code `0`); when loading
succeeds all five stages run. -/
theorem claim_c8_load_and_skip (fs : Option (List RawRecord)) (s : SalesAnalyzer) :
    ((load_data fs s).2.1 = fs.isSome) ∧
    (∀ t, fs = some t →
      (load_data fs s).2.2 = [Msg.loadedShape t.length rawColumns]) ∧
    (fs = none → (load_data fs s).1 = s ∧ (main_run fs).2 = ([Stage.loader], 0)) ∧
    (fs ≠ none → (main_run fs).2 = ([Stage.loader, Stage.cleaner, Stage.metricsCalculator,
      Stage.visualizer, Stage.reporter], 0)) := by
  cases fs with
  | none => simp [load_data, main_run]
  | some t => simp [load_data, main_run]

/-- C8 witness: with the input file missing only the Loader runs and the
exit code is `0`; with a file present `load_data` returns `true`. -/
theorem claim_c8_witness :
    (load_data none analyzer0).2.1 = false ∧
    (main_run none).2 = ([Stage.loader], 0) ∧
    (load_data (some ([] : List RawRecord)) analyzer0).2.1 = true := by
  refine ⟨?_, ((claim_c8_load_and_skip none analyzer0).2.2.1 rfl).2, ?_⟩
  · rw [(claim_c8_load_and_skip none analyzer0).1]
    rfl
  · rw [(claim_c8_load_and_skip (some ([] : List RawRecord)) analyzer0).1]
    rfl

/-- C9: when no table has been loaded, `clean_data` returns `false` and
leaves the analyzer state — every field — unchanged. -/
theorem claim_c9_noop_guard (s : SalesAnalyzer) (h : s.df = none) :
    clean_data s = (s, false) := by
  unfold clean_data
  rw [h]

/-- C9 witness: the no-op guard on a freshly constructed analyzer. -/
theorem claim_c9_witness : clean_data analyzer0 = (analyzer0, false) :=
  claim_c9_noop_guard analyzer0 rfl

/-- C10: cleaning preserves the record count and, record by record,
keeps `Product`, `Region` and the (parsed) `Date`, mean-fills the three
numeric cells against their columns, and appends the derived `Month`
column — nothing else changes. -/
theorem claim_c10_frame (t : List RawRecord) :
    (cleanTable t).length = t.length ∧
    ∀ i (hi : i < t.length) (hi' : i < (cleanTable t).length),
      ((cleanTable t).get ⟨i, hi'⟩).product = (t.get ⟨i, hi⟩).product ∧
      ((cleanTable t).get ⟨i, hi'⟩).region = (t.get ⟨i, hi⟩).region ∧
      ((cleanTable t).get ⟨i, hi'⟩).date = (t.get ⟨i, hi⟩).date ∧
      ((cleanTable t).get ⟨i, hi'⟩).month = monthName (t.get ⟨i, hi⟩).date.month ∧
      ((cleanTable t).get ⟨i, hi'⟩).quantity
        = fillWithMean (t.map (fun s => s.quantity)) (t.get ⟨i, hi⟩).quantity ∧
      ((cleanTable t).get ⟨i, hi'⟩).price
        = fillWithMean (t.map (fun s => s.price)) (t.get ⟨i, hi⟩).price ∧
      ((cleanTable t).get ⟨i, hi'⟩).total_sales
        = fillWithMean (t.map (fun s => s.total_sales)) (t.get ⟨i, hi⟩).total_sales := by
  refine ⟨by simp [cleanTable], ?_⟩
  intro i hi hi'
  have hg : (cleanTable t).get ⟨i, hi'⟩ = cleanRecord t (t.get ⟨i, hi⟩) := by
    simp [cleanTable]
  rw [hg]
  exact ⟨rfl, rfl, rfl, rfl, rfl, rfl, rfl⟩

/-- C5: on a table with no missing numeric values, cleaning followed by
metric calculation yields exactly the aggregates computed directly on
the raw table (cleaning is then only the month derivation, which the
direct computation reads off the raw dates); determinism is inherent in
the functional embedding — equal inputs give syntactically equal runs. -/
theorem claim_c5_no_missing_refinement (t : List RawRecord)
    (h : ∀ r ∈ t, r.quantity.isSome ∧ r.price.isSome ∧ r.total_sales.isSome) :
    calculate_metrics (cleanTable t) = directMetrics t := by
  have hclean : cleanTable t = t.map (fun r =>
      (⟨r.date, r.product, r.region, r.quantity, r.price, r.total_sales,
        monthName r.date.month⟩ : Record)) := by
    apply List.map_congr_left
    intro r hr
    rcases h r hr with ⟨hq, hp, hts⟩
    have e1 : fillWithMean (t.map (fun s => s.quantity)) r.quantity = r.quantity := by
      rcases Option.isSome_iff_exists.mp hq with ⟨v, hv⟩
      rw [hv]
      rfl
    have e2 : fillWithMean (t.map (fun s => s.price)) r.price = r.price := by
      rcases Option.isSome_iff_exists.mp hp with ⟨v, hv⟩
      rw [hv]
      rfl
    have e3 : fillWithMean (t.map (fun s => s.total_sales)) r.total_sales = r.total_sales := by
      rcases Option.isSome_iff_exists.mp hts with ⟨v, hv⟩
      rw [hv]
      rfl
    unfold cleanRecord
    rw [e1, e2, e3]
  rw [hclean]
  simp only [calculate_metrics, directMetrics, product_sales, groupbySum_map_comp,
    List.map_map]
  rfl

/-- C5 witness: the refinement on a concrete complete table. -/
theorem claim_c5_witness : calculate_metrics (cleanTable c5tbl) = directMetrics c5tbl :=
  claim_c5_no_missing_refinement c5tbl (by decide)

/-- Distributing a division and a multiplication over a summed value
column. -/
theorem sum_map_snd_div_mul (l : List (String × ℚ)) (T c : ℚ) :
    (l.map (fun p => p.2 / T * c)).sum = (l.map (fun p => p.2)).sum / T * c := by
  induction l with
  | nil => simp
  | cons p l ih => simp [ih, add_div, add_mul]

/-- C6: whenever total revenue is non-zero, the per-region percentages
printed by the report (region revenue divided by the `total_sales`
metric, times 100) sum to exactly 100 — exact rational arithmetic here,
"up to floating rounding" in the source. -/
theorem claim_c6_percentages (t : List RawRecord)
    (h : (calculate_metrics (cleanTable t)).total_sales ≠ 0) :
    ((regionalPercentages (calculate_metrics (cleanTable t))).map (fun p => p.2)).sum
      = 100 := by
  unfold regionalPercentages
  rw [List.map_map]
  rw [show ((fun p : String × ℚ => p.2) ∘ fun p : String × ℚ =>
      (p.1, p.2 / (calculate_metrics (cleanTable t)).total_sales * 100))
      = fun p : String × ℚ =>
        p.2 / (calculate_metrics (cleanTable t)).total_sales * 100 from rfl]
  rw [sum_map_snd_div_mul]
  have hsum : ((calculate_metrics (cleanTable t)).regional_sales.map (fun p => p.2)).sum
      = (calculate_metrics (cleanTable t)).total_sales := by
    show ((sortValuesDesc (groupbySum (cleanTable t) (fun r => r.region)
      (fun r => r.total_sales))).map (fun p => p.2)).sum = _
    rw [((perm_sortValuesDesc _).map (fun p : String × ℚ => p.2)).sum_eq]
    exact sum_groupbySum _ _ _
  rw [hsum, div_self h, one_mul]

/-- C6 witness: two regions with revenues 30 and 70 — the report lines
carry 30% and 70%, summing to 100%. -/
theorem claim_c6_witness :
    ((regionalPercentages (calculate_metrics (cleanTable c6tbl))).map (fun p => p.2)).sum
      = 100 := by
  apply claim_c6_percentages
  norm_num +decide [calculate_metrics, colSum, cleanTable, cleanRecord, c6tbl, fillWithMean]

/-- C7: the trend chart's series carries exactly the four fixed labels
January–April: a plotted point's month is one of the four and holds that
month's aggregated revenue, every one of the four months present in the
data is plotted, and any other month (e.g. May) is silently dropped —
the reindexing is total, so no error is raised. -/
theorem claim_c7_trend_months (t : List RawRecord) :
    ((trendSeries ((calculate_metrics (cleanTable t)).monthly_sales)).map Prod.fst
      = months_order) ∧
    (∀ k v, (k, some v) ∈ trendSeries ((calculate_metrics (cleanTable t)).monthly_sales) →
      k ∈ months_order ∧ (k, v) ∈ (calculate_metrics (cleanTable t)).monthly_sales) ∧
    (∀ k v, (k, v) ∈ (calculate_metrics (cleanTable t)).monthly_sales →
      k ∈ months_order →
      (k, some v) ∈ trendSeries ((calculate_metrics (cleanTable t)).monthly_sales)) := by
  refine ⟨?_, ?_, ?_⟩
  · unfold trendSeries
    rw [List.map_map]
    exact List.map_id' _
  · intro k v hmem
    unfold trendSeries at hmem
    rcases List.mem_map.mp hmem with ⟨k', hk', heq⟩
    injection heq with h1 h2
    subst h1
    exact ⟨hk', lookupSeries_eq_some_mem h2⟩
  · intro k v hmem hk
    have hnd : (((calculate_metrics (cleanTable t)).monthly_sales).map Prod.fst).Nodup :=
      nodup_groupbySum_keys (cleanTable t) (fun r => r.month) (fun r => r.total_sales)
    have hl : lookupSeries k ((calculate_metrics (cleanTable t)).monthly_sales) = some v :=
      mem_lookupSeries_of_nodup hnd hmem
    unfold trendSeries
    exact List.mem_map.mpr ⟨k, hk, by rw [hl]⟩

/-- C7 witness: a table with a January and a May record — May does not
appear in the plotted series, January does with its revenue. -/
theorem claim_c7_witness :
    ("May" ∉ (trendSeries ((calculate_metrics (cleanTable c7tbl)).monthly_sales)).map
      Prod.fst) ∧
    ("January", some (100 : ℚ)) ∈
      trendSeries ((calculate_metrics (cleanTable c7tbl)).monthly_sales) := by
  constructor
  · rw [(claim_c7_trend_months c7tbl).1]
    decide
  · apply (claim_c7_trend_months c7tbl).2.2 "January" 100
    · norm_num +decide [calculate_metrics, groupbySum, firstKeys, colSum, cleanTable,
        cleanRecord, c7tbl, monthName, List.insertionSort, List.orderedInsert,
        List.filter_cons, fillWithMean]
    · decide

/-- C10 witness: the frame property instantiated on a one-record table
(whose price is missing). -/
theorem claim_c10_witness :
    (cleanTable c10tbl).length = c10tbl.length ∧
    ((cleanTable c10tbl).get ⟨0, by norm_num [cleanTable, c10tbl]⟩).product = "Widget" := by
  refine ⟨(claim_c10_frame c10tbl).1, ?_⟩
  have h := ((claim_c10_frame c10tbl).2 0 (by norm_num [c10tbl])
    (by norm_num [cleanTable, c10tbl])).1
  exact h.trans (by rfl)

end SaleAnalysis
